import Mathlib

/-!
Verification development for the stonkscheme front end and evaluation core:
a shallow embedding in Lean 4 of the source buffer store (`code.rs`), the
combinator parser (`parser.rs`, built on nom 8) and the tree-walking
evaluator (`interpreter.rs`), together with theorems about the claims of
the specification.

Modelling conventions:
* Rust `i64` values are embedded as `Int`; where the source performs `i64`
  addition (the `+` primitive) the embedding uses two's-complement wrapping
  at 64 bits, and where the source range-checks (`str::parse::<i64>`) the
  embedding checks the same range.
* Rust `f64` payloads are embedded as exact rationals `ℚ`.  The claims that
  touch floats only concern dyadic values (`2.5`, `3.5`) on which IEEE 754
  double addition is exact, so the rational model agrees with the source.
* `panic!` (a process-terminating failure in Rust) and `Result::Err`
  (a recoverable error value) are distinguished as the two constructors of
  `EvalErr`; both are carried in the `Except` error position so that the
  Lean functions stay total, but only `EvalErr.err` models a catchable
  error returned to the caller.
* nom's `Err::Error` (backtrackable) and `Err::Failure` (produced by `cut`,
  aborts alternatives) are the two constructors of `PFail`.
* Recursion through the grammar and through the evaluator is expressed with
  an explicit fuel parameter; fuel exhaustion surfaces as a distinguished
  error that never occurs for the canonical fuel used by the entry points
  on the inputs appearing in the theorems.
-/

namespace Stonks

/-! ### AST (`ast.rs`)

`Symbol(String)` is a newtype over `String` in the source; the embedding
inlines it.  `Duration` and `Timestamp` wrap chrono values that the core
never constructs (neither the parser nor the evaluator produces them);
their payloads are embedded as integers (nanosecond counts). -/

inductive Expr where
  | nil : Expr
  | comment (s : String) : Expr
  | combination (op : Expr) (args : List Expr) : Expr
  | symbol (s : String) : Expr
  | boolean (b : Bool) : Expr
  | float (q : ℚ) : Expr
  | string (s : String) : Expr
  | duration (n : Int) : Expr
  | timestamp (n : Int) : Expr
  | integer (n : Int) : Expr

/-! ### Parser result type (nom 8 `IResult`)

The input is the list of characters remaining to be consumed.  `PFail.soft`
is nom's `Err::Error`, `PFail.hard` is nom's `Err::Failure`. -/

/-- `nom::error::ErrorKind`, restricted to the kinds this grammar can
produce, plus a marker for fuel exhaustion of the embedding. -/
inductive NomKind where
  | tag | takeWhile1 | digit | charKind | mapRes | separatedList | eof | fuel
deriving DecidableEq, Repr

/-- `ParseError` from `parser.rs` (spans are byte offsets into the source
buffer; the buffer handle itself is kept separately by the entry points). -/
inductive ParseError where
  | nomErr (kind : NomKind) (start stop : Nat)
  | badInt (value msg : String) (start stop : Nat)
deriving DecidableEq, Repr

inductive PFail where
  | soft (e : ParseError)
  | hard (e : ParseError)
deriving DecidableEq, Repr

/-- nom `IResult`: either the remaining input plus the output, or a failure. -/
abbrev PRes (α : Type) := Except PFail (List Char × α)

/-- A parser over the remaining input.  The full source text is threaded
separately where offsets are needed. -/
abbrev Parsec (α : Type) := List Char → PRes α

/-- Error span covering the whole remaining fragment, as
`CodeSpan::from(ParserSpan)` computes it: `[offset, offset + rest.len)`.
`src` is the full source, `i` the remaining input. -/
def restSpan (src i : List Char) : Nat × Nat :=
  (src.length - i.length, src.length)

/-! ### Generic combinators (nom 8 semantics) -/

/-- `nom::branch::alt` for two parsers: backtrack on `Err::Error`,
propagate `Err::Failure`; on total failure keep the first error
(`ParseError::or(self, _) = self`). -/
def pAlt2 {α : Type} (p q : Parsec α) : Parsec α := fun i =>
  match p i with
  | .ok r => .ok r
  | .error (.hard e) => .error (.hard e)
  | .error (.soft e) =>
    match q i with
    | .ok r => .ok r
    | .error (.hard e2) => .error (.hard e2)
    | .error (.soft _) => .error (.soft e)

def pAlt3 {α : Type} (p q r : Parsec α) : Parsec α :=
  pAlt2 p (pAlt2 q r)

/-- `nom::combinator::opt`. -/
def pOpt {α : Type} (p : Parsec α) : Parsec (Option α) := fun i =>
  match p i with
  | .ok (r, a) => .ok (r, some a)
  | .error (.soft _) => .ok (i, none)
  | .error (.hard e) => .error (.hard e)

/-- `nom::combinator::cut`: turn a backtrackable error into a failure. -/
def pCut {α : Type} (p : Parsec α) : Parsec α := fun i =>
  match p i with
  | .ok r => .ok r
  | .error (.soft e) => .error (.hard e)
  | .error (.hard e) => .error (.hard e)

/-- Sequencing (nom tuple/`pair`): run `p`, then `q` on the rest. -/
def pSeq {α β : Type} (p : Parsec α) (q : Parsec β) : Parsec (α × β) := fun i =>
  match p i with
  | .error e => .error e
  | .ok (r, a) =>
    match q r with
    | .error e => .error e
    | .ok (r2, b) => .ok (r2, (a, b))

/-- `nom::sequence::delimited`. -/
def pDelimited {α β γ : Type} (l : Parsec α) (m : Parsec β) (r : Parsec γ) :
    Parsec β := fun i =>
  match l i with
  | .error e => .error e
  | .ok (i1, _) =>
    match m i1 with
    | .error e => .error e
    | .ok (i2, b) =>
      match r i2 with
      | .error e => .error e
      | .ok (i3, _) => .ok (i3, b)

/-- `nom::sequence::separated_pair`. -/
def pSeparatedPair {α β γ : Type} (p : Parsec α) (sep : Parsec β)
    (q : Parsec γ) : Parsec (α × γ) := fun i =>
  match p i with
  | .error e => .error e
  | .ok (i1, a) =>
    match sep i1 with
    | .error e => .error e
    | .ok (i2, _) =>
      match q i2 with
      | .error e => .error e
      | .ok (i3, c) => .ok (i3, (a, c))

/-- `nom::combinator::recognize`: return the consumed slice of the input. -/
def pRecognize {α : Type} (p : Parsec α) : Parsec (List Char) := fun i =>
  match p i with
  | .error e => .error e
  | .ok (r, _) => .ok (r, i.take (i.length - r.length))

/-- `nom::character::complete::char`. -/
def pChar (src : List Char) (c : Char) : Parsec Char := fun i =>
  match i with
  | [] => .error (.soft (.nomErr .charKind (restSpan src i).1 (restSpan src i).2))
  | x :: r =>
    if x = c then .ok (r, c)
    else .error (.soft (.nomErr .charKind (restSpan src i).1 (restSpan src i).2))

/-- `nom::bytes::complete::tag` for a single-character tag (the grammar only
uses `tag("(")` and `tag(")")`). -/
def pTag (src : List Char) (c : Char) : Parsec Unit := fun i =>
  match i with
  | x :: r =>
    if x = c then .ok (r, ())
    else .error (.soft (.nomErr .tag (restSpan src i).1 (restSpan src i).2))
  | [] => .error (.soft (.nomErr .tag (restSpan src i).1 (restSpan src i).2))

/-- `nom::bytes::complete::take_while1`. -/
def pTakeWhile1 (src : List Char) (f : Char → Bool) (kind : NomKind) :
    Parsec (List Char) := fun i =>
  let taken := i.takeWhile f
  if taken.isEmpty then
    .error (.soft (.nomErr kind (restSpan src i).1 (restSpan src i).2))
  else .ok (i.dropWhile f, taken)

/-- Whitespace recognized by `nom::character::complete::multispace0`. -/
def isSpaceChar (c : Char) : Bool :=
  c = ' ' || c = '\t' || c = '\r' || c = '\n'

/-- `multispace0`: always succeeds. -/
def pMultispace0 : Parsec Unit := fun i =>
  .ok (i.dropWhile isSpaceChar, ())

/-- ASCII decimal digit (`nom`'s `is_digit` for `digit1`). -/
def isDigitChar (c : Char) : Bool := '0' ≤ c && c ≤ '9'

/-- `nom::character::complete::digit1`. -/
def pDigit1 (src : List Char) : Parsec (List Char) :=
  pTakeWhile1 src isDigitChar .digit

/-- `Parser::map`. -/
def pMap {α β : Type} (p : Parsec α) (f : α → β) : Parsec β := fun i =>
  match p i with
  | .error e => .error e
  | .ok (r, a) => .ok (r, f a)

/-- Discard a parser's output (nom's `map(…, |_| ())`). -/
def pUnit {α : Type} (p : Parsec α) : Parsec Unit :=
  pMap p (fun _ => ())

/-! ### `recognize_float` (nom 8, `nom::number::complete`)

Grammar: optional sign; then either `digit1` followed by an optional
`'.' digit1?`, or `'.' digit1`; then an optional exponent
`('e'|'E') sign? digit1` whose digits are under `cut`.  Note that an
underscore is not matched by any of these pieces. -/

def pSign (src : List Char) : Parsec (Option Char) :=
  pOpt (pAlt2 (pChar src '+') (pChar src '-'))

def recognizeFloatBody (src : List Char) : Parsec Unit :=
  pUnit (pSeq (pSign src)
    (pSeq
      (pAlt2
        (pUnit (pSeq (pDigit1 src)
          (pOpt (pSeq (pChar src '.') (pOpt (pDigit1 src))))))
        (pUnit (pSeq (pChar src '.') (pDigit1 src))))
      (pOpt (pSeq (pAlt2 (pChar src 'e') (pChar src 'E'))
        (pSeq (pSign src) (pCut (pDigit1 src)))))))

def recognizeFloat (src : List Char) : Parsec (List Char) :=
  pRecognize (recognizeFloatBody src)

/-! ### Numeric literal interpretation (`parse_number`) -/

/-- Value of a (possibly empty) digit run. -/
def digitsVal (l : List Char) : Nat :=
  l.foldl (fun a c => 10 * a + (c.toNat - '0'.toNat)) 0

/-- `str::parse::<i64>`: optional sign, decimal digits, checked against the
`i64` range; error messages follow `ParseIntError`'s display forms. -/
def parseI64 (l : List Char) : Except String Int :=
  let signed : Int × List Char :=
    match l with
    | '+' :: r => (1, r)
    | '-' :: r => (-1, r)
    | r => (1, r)
  if signed.2.isEmpty then
    .error "cannot parse integer from empty string"
  else if !(signed.2.all isDigitChar) then
    .error "invalid digit found in string"
  else
    let v : Int := signed.1 * (digitsVal signed.2 : Int)
    if v < -(2 ^ 63) then .error "number too small to fit in target type"
    else if (2 ^ 63 : Int) ≤ v then .error "number too large to fit in target type"
    else .ok v

/-- `str::parse::<f64>`, embedded exactly over ℚ.  On every fragment that
`recognize_float` can produce (and that reaches the float branch) the Rust
conversion succeeds, so the embedding is total; the decimal value stands in
for the nearest IEEE 754 double. -/
def parseF64 (l : List Char) : ℚ :=
  let signed : ℚ × List Char :=
    match l with
    | '+' :: r => (1, r)
    | '-' :: r => (-1, r)
    | r => (1, r)
  let mant := signed.2.takeWhile (fun c => !(c = 'e' || c = 'E'))
  let expPart := signed.2.dropWhile (fun c => !(c = 'e' || c = 'E'))
  let intDigits := mant.takeWhile (fun c => !(c = '.'))
  let fracDigits := (mant.dropWhile (fun c => !(c = '.'))).drop 1
  let expVal : Int :=
    match expPart with
    | _e :: '+' :: ds => (digitsVal ds : Int)
    | _e :: '-' :: ds => -(digitsVal ds : Int)
    | _e :: ds => (digitsVal ds : Int)
    | [] => 0
  signed.1 *
    ((digitsVal intDigits : ℚ) +
      (digitsVal fracDigits : ℚ) / ((10 : ℚ) ^ fracDigits.length)) *
    ((10 : ℚ) ^ expVal)

/-- The closure passed to `map_res` in `parse_number`: strip underscores
from the recognized fragment, then interpret as float when a `.`/`e`/`E`
is present and as `i64` otherwise. -/
def interpretNumber (frag : List Char) : Except String Expr :=
  let cleaned := frag.filter (fun c => !(c = '_'))
  if cleaned.contains '.' || cleaned.contains 'e' || cleaned.contains 'E' then
    .ok (Expr.float (parseF64 cleaned))
  else
    match parseI64 cleaned with
    | .ok n => .ok (.integer n)
    | .error msg => .error msg

/-- `parse_number`: `map_res(recognize_float, interpret)`; a conversion
failure becomes a backtrackable `BadInt` diagnostic carrying the fragment
text and the converter message. -/
def parseNumber (src : List Char) : Parsec Expr := fun i =>
  match recognizeFloat src i with
  | .error e => .error e
  | .ok (r, frag) =>
    match interpretNumber frag with
    | .ok e => .ok (r, e)
    | .error msg =>
      .error (.soft (.badInt (String.mk frag) msg
        (restSpan src i).1 (restSpan src i).2))

/-! ### Symbols -/

/-- The symbol alphabet: `is_ascii_alphabetic` plus
`_ + - * = > < ! ? / $`. -/
def isSymbolChar (c : Char) : Bool :=
  ('a' ≤ c && c ≤ 'z') || ('A' ≤ c && c ≤ 'Z') ||
  c = '_' || c = '+' || c = '-' || c = '*' || c = '=' || c = '>' ||
  c = '<' || c = '!' || c = '?' || c = '/' || c = '$'

/-- The symbol alternative of `parse_expr`:
`map_res(take_while1(…), |span| Ok(Expr::Symbol(…)))`. -/
def parseSymbol (src : List Char) : Parsec Expr := fun i =>
  match pTakeWhile1 src isSymbolChar .takeWhile1 i with
  | .error e => .error e
  | .ok (r, frag) => .ok (r, Expr.symbol (String.mk frag))

/-! ### Spans (`code.rs`: `CodeSpan` / `Spanned`) -/

/-- `CodeSpan`: the owning buffer plus a byte range.  The `end` field of
the source is called `stop` here (`end` is reserved in Lean). -/
structure CodeSpan where
  code : List Char
  start : Nat
  stop : Nat
deriving DecidableEq, Repr

structure Spanned (α : Type) where
  value : α
  span : CodeSpan

/-- The `spanned` wrapper from `parser.rs`: record the offset before and
after running the inner parser. -/
def spanned {α : Type} (src : List Char) (p : Parsec α) : Parsec (Spanned α) :=
  fun i =>
    match p i with
    | .error e => .error e
    | .ok (r, v) =>
      .ok (r, ⟨v, ⟨src, src.length - i.length, src.length - r.length⟩⟩)

/-! ### `separated_list1` (nom 8)

After the first element: try the separator; a backtrackable separator
failure ends the list.  Then try the element; a backtrackable element
failure ends the list (before the separator).  If separator and element
together consumed nothing, fail (infinite-loop protection).  The recursion
is expressed with fuel; each retained iteration strictly shrinks the
input, so `i.length + 1` fuel is always enough. -/

def sepList1Aux {α : Type} (sep : Parsec Unit) (p : Parsec α)
    (src : List Char) : Nat → List Char → List α → PRes (List α)
  | 0, i, _ =>
    .error (.soft (.nomErr .fuel (restSpan src i).1 (restSpan src i).2))
  | f + 1, i, acc =>
    match sep i with
    | .error (.soft _) => .ok (i, acc)
    | .error (.hard e) => .error (.hard e)
    | .ok (i1, _) =>
      match p i1 with
      | .error (.soft _) => .ok (i, acc)
      | .error (.hard e) => .error (.hard e)
      | .ok (i2, a) =>
        if i2.length = i.length then
          .error (.soft (.nomErr .separatedList
            (restSpan src i).1 (restSpan src i).2))
        else sepList1Aux sep p src f i2 (acc ++ [a])

def sepList1 {α : Type} (sep : Parsec Unit) (p : Parsec α)
    (src : List Char) : Parsec (List α) := fun i =>
  match p i with
  | .error e => .error e
  | .ok (i1, a) => sepList1Aux sep p src (i1.length + 1) i1 [a]

/-! ### The expression grammar (`parse_expr` / `parse_combination`)

The recursion through nested combinations is driven by fuel; each descent
into a combination consumes the opening parenthesis, so
`src.length + 1` fuel suffices for any input. -/

/-- `parse_combination_inner`:
`separated_pair(parse_expr, multispace0, separated_list1(multispace0, parse_expr))`,
mapped to a `Combination` whose children keep only their values — the
children's spans are discarded here.  The recursive occurrences of
`parse_expr` are the parameter `pe`. -/
def parseCombinationInnerWith (src : List Char)
    (pe : Parsec (Spanned Expr)) : Parsec Expr := fun i =>
  match pSeparatedPair pe pMultispace0 (sepList1 pMultispace0 pe src) i with
  | .error e => .error e
  | .ok (r, (op, args)) =>
    .ok (r, Expr.combination op.value (args.map (fun s => s.value)))

/-- `parse_combination`: `delimited(tag("("), inner, tag(")"))`. -/
def parseCombinationWith (src : List Char)
    (pe : Parsec (Spanned Expr)) : Parsec Expr :=
  pDelimited (pTag src '(') (parseCombinationInnerWith src pe) (pTag src ')')

/-- `parse_expr`: number, then symbol, then combination, in that order.
Structural recursion on the fuel; each recursive descent sits behind the
opening parenthesis consumed by `parse_combination`, so `src.length + 1`
fuel is enough for any input. -/
def parseExpr (src : List Char) : Nat → Parsec (Spanned Expr)
  | 0 => fun i =>
    .error (.soft (.nomErr .fuel (restSpan src i).1 (restSpan src i).2))
  | fuel + 1 =>
    pAlt3 (spanned src (parseNumber src))
          (spanned src (parseSymbol src))
          (spanned src (parseCombinationWith src (parseExpr src fuel)))

/-! ### Entry points (`complete_expr`, `parse_snippet`) -/

def canonicalFuel (src : List Char) : Nat := src.length + 1

/-- `complete_expr`: `delimited(multispace0, parse_expr, multispace0)`,
after which the remaining input is discarded (`let (_, spanned) = …`). -/
def completeExpr (src : List Char) : Except ParseError (Spanned Expr) :=
  match pDelimited pMultispace0 (parseExpr src (canonicalFuel src))
      pMultispace0 src with
  | .ok (_rest, sp) => .ok sp
  | .error (.soft e) => .error e
  | .error (.hard e) => .error e

/-- `parse_snippet`: intern the snippet and run `complete_expr` on it. -/
def parseSnippet (s : String) : Except ParseError (Spanned Expr) :=
  completeExpr s.data

/-- Modelled from the spec: the top-level parse the specification
describes — "skip leading/trailing whitespace, parse exactly one
expression, fail if unconsumed input remains after that expression".
This is `complete_expr` plus the all-consuming check that the
specification requires but the source does not perform. -/
def specCompleteExpr (src : List Char) : Except ParseError (Spanned Expr) :=
  match pDelimited pMultispace0 (parseExpr src (canonicalFuel src))
      pMultispace0 src with
  | .ok (rest, sp) =>
    if rest.isEmpty then .ok sp
    else .error (.nomErr .eof (restSpan src rest).1 (restSpan src rest).2)
  | .error (.soft e) => .error e
  | .error (.hard e) => .error e

/-! ### Environment (`interpreter.rs`: `Scope`, `Env`)

A `Scope` is an insertion-order-preserving map (`IndexMap`), embedded as an
association list whose `insert` replaces in place or appends.  The
`scope_stack` is a `VecDeque` pushed at the back: the front is the
outermost scope, the back the innermost.  The `Arc<Mutex<…>>` sharing of
scopes is not needed by the claims; the embedding passes environments by
value. -/

abbrev Scope := List (String × Expr)

def scopeLookup : Scope → String → Option Expr
  | [], _ => none
  | (k0, v0) :: rest, k => if k0 = k then some v0 else scopeLookup rest k

/-- `IndexMap::insert`: replace the existing entry in place, else append. -/
def scopeInsert : Scope → String → Expr → Scope
  | [], k, v => [(k, v)]
  | (k0, v0) :: rest, k, v =>
    if k0 = k then (k, v) :: rest else (k0, v0) :: scopeInsert rest k v

structure Env where
  scope_stack : List Scope

/-- `Env::new`: one empty scope. -/
def Env.new : Env := ⟨[[]]⟩

/-- `Env::clone_child`: push a fresh empty scope at the back. -/
def Env.clone_child (e : Env) : Env := ⟨e.scope_stack ++ [[]]⟩

/-- `Env::get`: scan the scopes from the back (innermost) to the front
(outermost), returning the first binding found. -/
def Env.get (e : Env) (k : String) : Option Expr :=
  e.scope_stack.reverse.findSome? (fun s => scopeLookup s k)

/-- Insert into the last (innermost) scope; no-op on an empty stack,
mirroring `back_mut` returning `None`. -/
def setInnermost : List Scope → String → Expr → List Scope
  | [], _, _ => []
  | [s], k, v => [scopeInsert s k v]
  | s :: s2 :: rest, k, v => s :: setInnermost (s2 :: rest) k v

/-- `Env::set`: write into the innermost scope. -/
def Env.set (e : Env) (k : String) (v : Expr) : Env :=
  ⟨setInnermost e.scope_stack k v⟩

def builtin_set (env : Env) (key : String) (value : Expr) : Env :=
  env.set key value

/-- `builtin_get`: unbound names yield `Nil`. -/
def builtin_get (env : Env) (key : String) : Expr :=
  (env.get key).getD .nil

/-! ### Evaluation results

`EvalErr.err` embeds `Result::Err(String)` — the recoverable error value
`eval` returns to its caller.  `EvalErr.panicked` embeds `panic!` /
`unreachable!` — a process-terminating failure; it is carried in the error
position only so that the embedding stays total. -/

inductive EvalErr where
  | err (msg : String)
  | panicked (msg : String)
deriving DecidableEq, Repr

/-- The `Number` accumulator of the `+` primitive. -/
inductive Number where
  | zero
  | unsigned (n : Nat)
  | signed (n : Int)
  | floatN (q : ℚ)
deriving DecidableEq, Repr

/-- Two's-complement wrap at 64 bits: the effect of `i64` addition
(`n + *i`) in the source. -/
def wrapI64 (z : Int) : Int := (z + 2 ^ 63) % 2 ^ 64 - 2 ^ 63

/-- Rust `{:?}` (derived `Debug`) rendering of a string payload. -/
def debugStr (s : String) : String :=
  "\"" ++ String.join (s.data.map (fun c =>
    if c = '"' then "\\\"" else if c = '\\' then "\\\\"
    else String.singleton c)) ++ "\""

/-- Decimal rendering of a rational standing in for an `f64` `Debug`
format; exact when the denominator divides a power of ten, which holds for
every float the parser or `+` can produce from decimal literals. -/
def ratDebug (q : ℚ) : String :=
  let sgn := if q < 0 then "-" else ""
  let q' := |q|
  let whole := q'.floor
  let frac := q' - whole
  let digits :=
    (List.range 17).foldl (fun (st : ℚ × String) _ =>
      let t := st.1 * 10
      (t - t.floor, st.2 ++ toString t.floor.natAbs)) (frac, "")
  let fracStr := digits.2.dropRightWhile (fun c => c = '0')
  sgn ++ toString whole.natAbs ++ "." ++ (if fracStr = "" then "0" else fracStr)

/-! Rust `{:?}` (derived `Debug`) rendering of an `Expr`, as interpolated
into the non-numeric-argument error of `+`.  Chrono payloads are rendered
best-effort; they are unreachable from the parser and the evaluator. -/
mutual

def exprDebug : Expr → String
  | .nil => "Nil"
  | .comment s => "Comment(" ++ debugStr s ++ ")"
  | .combination op args =>
    "Combination(" ++ exprDebug op ++ ", [" ++ exprDebugList args ++ "])"
  | .symbol s => "Symbol(Symbol(" ++ debugStr s ++ "))"
  | .boolean b => "Boolean(" ++ toString b ++ ")"
  | .float q => "Float(" ++ ratDebug q ++ ")"
  | .string s => "String(" ++ debugStr s ++ ")"
  | .duration n => "Duration(" ++ toString n ++ ")"
  | .timestamp n => "Timestamp(" ++ toString n ++ ")"
  | .integer n => "Integer(" ++ toString n ++ ")"

def exprDebugList : List Expr → String
  | [] => ""
  | [a] => exprDebug a
  | a :: b :: rest => exprDebug a ++ ", " ++ exprDebugList (b :: rest)

end

/-- The error message of `+` for a non-numeric argument. -/
def plusErrMsg (e : Expr) : String :=
  "Invalid argument for '+': expected Integer or Float, found " ++ exprDebug e

/-- The accumulation loop of the `+` primitive: left-to-right over the
already-evaluated arguments, exactly the `match (number, arg)` of the
source.  The first non-numeric argument aborts with `Err` (a recoverable
error, not a panic). -/
def plusLoop : Number → List Expr → Except EvalErr Number
  | n, [] => .ok n
  | .zero, .integer i :: rest => plusLoop (.signed i) rest
  | .zero, .float f :: rest => plusLoop (.floatN f) rest
  | .signed n, .integer i :: rest => plusLoop (.signed (wrapI64 (n + i))) rest
  | .signed n, .float f :: rest => plusLoop (.floatN ((n : ℚ) + f)) rest
  | .floatN n, .float f :: rest => plusLoop (.floatN (n + f)) rest
  | .floatN n, .integer i :: rest => plusLoop (.floatN (n + (i : ℚ))) rest
  | _, other :: _ => .error (.err (plusErrMsg other))

/-! ### The evaluator (`Interpreter::eval`)

`eval` mirrors the source: a combination first evaluates its operator,
then its arguments left-to-right (threading the environment, since nested
`set`s mutate it), and only then dispatches on the evaluated operator.
The dispatch is the source's inline `match` on the symbol name, factored
into `applyEvaluatedWith` so the claims can speak about it directly.  The `if`
primitive re-evaluates its (already evaluated) condition, a recursive call
on a non-structural argument; fuel makes the definition total. -/

/-- One step of the argument loop: evaluate each argument left-to-right
with the supplied evaluator, threading the environment. -/
def evalListWith (ev : Env → Expr → Except EvalErr (Expr × Env)) :
    Env → List Expr → Except EvalErr (List Expr × Env)
  | env, [] => .ok ([], env)
  | env, a :: rest =>
    match ev env a with
    | .error e => .error e
    | .ok (a2, env1) =>
      match evalListWith ev env1 rest with
      | .error e => .error e
      | .ok (rest2, env2) => .ok (a2 :: rest2, env2)

/-- Dispatch on the evaluated operator with the evaluated argument list:
the body of the source's `match target.clone()`.  The evaluator `ev` is
the recursive call used by `if` to re-evaluate its condition. -/
def applyEvaluatedWith (ev : Env → Expr → Except EvalErr (Expr × Env))
    (env : Env) (target : Expr) (new_args : List Expr) :
    Except EvalErr (Expr × Env) :=
  match target with
  | .symbol s =>
    if s = "set" then
      match List.get? new_args 0 with
      | some (.symbol key) =>
        match List.get? new_args 1 with
        | some value => .ok (.nil, builtin_set env key value)
        | none => .error (.panicked "set requires two arguments")
      | _ => .error (.panicked "set requires a Symbol key")
    else if s = "get" then
      match List.get? new_args 0 with
      | some (.symbol key) => .ok (builtin_get env key, env)
      | _ => .error (.panicked "get requires a Symbol key")
    else if s = "car" then
      match List.get? new_args 0 with
      | some (.combination t _) => .ok (t, env)
      | _ => .error (.panicked "car requires a list")
    else if s = "cdr" then
      match List.get? new_args 0 with
      | some (.combination _ args) =>
        match args with
        | a :: b :: rest => .ok (.combination a (b :: rest), env)
        | _ =>
          .error (.panicked "cdr requires a list with at least two elements")
      | _ => .error (.panicked "car requires a list")
    else if s = "cons" then
      match List.get? new_args 0 with
      | some (.combination t args) =>
        if args.length > 0 then .ok (.combination t args, env)
        else .error (.panicked "cons requires a list")
      | _ => .error (.panicked "cons requires a list")
    else if s = "if" then
      match new_args with
      | [c, thenV, elseV] =>
        match ev env c with
        | .error e => .error e
        | .ok (cond, env2) =>
          match cond with
          | .boolean true => .ok (thenV, env2)
          | .boolean false => .ok (elseV, env2)
          | _ => .error (.panicked "if requires a boolean condition")
      | _ => .error (.panicked "if requires three arguments")
    else if s = "+" then
      match plusLoop .zero new_args with
      | .error e => .error e
      | .ok .zero => .ok (.integer 0, env)
      | .ok (.signed n) => .ok (.integer n, env)
      | .ok (.floatN q) => .ok (.float q, env)
      | .ok (.unsigned _) =>
        .error (.panicked "internal error: entered unreachable code: Unsigned numbers not handled in addition logic")
    else .ok (.combination (.symbol s) new_args, env)
  | _ => .ok (.combination target new_args, env)

/-- `Interpreter::eval`, structurally recursive on the fuel. -/
def eval : Nat → Env → Expr → Except EvalErr (Expr × Env)
  | 0, _, _ => .error (.err "evaluator fuel exhausted (embedding artifact)")
  | fuel + 1, env, expr =>
    match expr with
    | .combination t args =>
      match eval fuel env t with
      | .error e => .error e
      | .ok (t2, env1) =>
        match evalListWith (eval fuel) env1 args with
        | .error e => .error e
        | .ok (args2, env2) => applyEvaluatedWith (eval fuel) env2 t2 args2
    | .nil => .ok (expr, env)
    | .comment _ => .ok (expr, env)
    | .boolean _ => .ok (expr, env)
    | .symbol _ => .ok (expr, env)
    | .float _ => .ok (expr, env)
    | .string _ => .ok (expr, env)
    | .duration _ => .ok (expr, env)
    | .timestamp _ => .ok (expr, env)
    | .integer _ => .ok (expr, env)

/-! ### The source store (`code.rs`)

The global `CODE_ATLAS` (`HashMap<Bytes, Arc<Code>>` keyed by the SHA-256
of the text) is embedded as an association list threaded through `intern`.
The digest is a parameter of the embedding; the source's collision-freedom
assumption for SHA-256 appears in the theorems as an injectivity
hypothesis. -/

structure Code where
  sha : List Nat
  name : Option String
  file_path : Option String
  text : String
deriving DecidableEq, Repr

abbrev Atlas := List (List Nat × Code)

def atlasLookup : Atlas → List Nat → Option Code
  | [], _ => none
  | (k, c) :: rest, sha => if k = sha then some c else atlasLookup rest sha

/-- `Path::file_name` of a path string, best effort. -/
def fileNameOf (p : String) : String :=
  (p.splitOn "/").getLastD p

/-- `Code::intern`: look up the digest of the text; return the already
interned buffer, or create, register and return a fresh one.  The lock on
the atlas makes lookup-or-insert atomic in the source; the embedding
threads the atlas state explicitly. -/
def Code.intern (digest : String → List Nat) (atlas : Atlas) (text : String)
    (file_path : Option String) : Code × Atlas :=
  let sha := digest text
  match atlasLookup atlas sha with
  | some c => (c, atlas)
  | none =>
    let c : Code := ⟨sha, file_path.map fileNameOf, file_path, text⟩
    (c, atlas ++ [(sha, c)])

/-- `Code::from_snippet`. -/
def Code.from_snippet (digest : String → List Nat) (atlas : Atlas)
    (src : String) : Code × Atlas :=
  Code.intern digest atlas src none

/-- `Code::from_file`, with the file's content supplied (the I/O read is
outside the embedding; a read failure never reaches `intern`). -/
def Code.from_file (digest : String → List Nat) (atlas : Atlas)
    (path content : String) : Code × Atlas :=
  Code.intern digest atlas content (some path)

/-! ### Derived predicates used by the theorems -/

/-- Whether an evaluation result is a recoverable (catchable) error — the
`Err` side of `Result<Expr, String>` — as opposed to a success or a
panic. -/
def isCatchableErr (r : Except EvalErr (Expr × Env)) : Bool :=
  match r with
  | .error (.err _) => true
  | _ => false

/-- The operator names recognized by the evaluator's dispatch. -/
def primNames : List String := ["set", "get", "car", "cdr", "cons", "if", "+"]

/-- Numeric arguments accepted by `+`. -/
def isNumericExpr : Expr → Bool
  | .integer _ => true
  | .float _ => true
  | _ => false

/-- Whether some argument is a float (forcing promotion). -/
def hasFloatArg (l : List Expr) : Bool :=
  l.any (fun e => match e with | .float _ => true | _ => false)

/-- Left fold of wrapping `i64` addition, the integer-only accumulation
of `+` after its first argument seeded the accumulator. -/
def intFoldFrom (n : Int) (l : List Int) : Int :=
  l.foldl (fun a i => wrapI64 (a + i)) n

/-- The atlas keys every entry by the digest of its buffer text. -/
def AtlasKeyed (digest : String → List Nat) (atlas : Atlas) : Prop :=
  ∀ p ∈ atlas, p.1 = digest p.2.text

/-- At most one buffer per distinct content. -/
def AtlasOnePerContent (atlas : Atlas) : Prop :=
  ∀ p ∈ atlas, ∀ q ∈ atlas, p.2.text = q.2.text → p = q

/-- A concrete injective digest standing in for SHA-256 in the witness. -/
def digest0 (s : String) : List Nat := s.data.map Char.toNat

/-- A parser only consumes: on success the remaining input is a suffix of
the input it was given. -/
def SufP {α : Type} (p : Parsec α) : Prop :=
  ∀ i r a, p i = .ok (r, a) → r <:+ i

/-! ## Theorems -/

/-! ### Stepping lemmas for the evaluator (all definitional) -/

theorem eval_combination (fuel : Nat) (env : Env) (t : Expr)
    (args : List Expr) :
    eval (fuel + 1) env (.combination t args) =
      match eval fuel env t with
      | .error e => .error e
      | .ok (t2, env1) =>
        match evalListWith (eval fuel) env1 args with
        | .error e => .error e
        | .ok (args2, env2) => applyEvaluatedWith (eval fuel) env2 t2 args2 :=
  rfl

theorem eval_symbol (fuel : Nat) (env : Env) (s : String) :
    eval (fuel + 1) env (.symbol s) = .ok (.symbol s, env) := rfl

theorem evalListWith_nil (ev : Env → Expr → Except EvalErr (Expr × Env))
    (env : Env) : evalListWith ev env [] = .ok ([], env) := rfl

theorem evalListWith_cons (ev : Env → Expr → Except EvalErr (Expr × Env))
    (env : Env) (a : Expr) (rest : List Expr) :
    evalListWith ev env (a :: rest) =
      match ev env a with
      | .error e => .error e
      | .ok (a2, env1) =>
        match evalListWith ev env1 rest with
        | .error e => .error e
        | .ok (rest2, env2) => .ok (a2 :: rest2, env2) := rfl

/-! ### Environment lemmas -/

theorem scopeLookup_scopeInsert_self (s : Scope) (k : String) (v : Expr) :
    scopeLookup (scopeInsert s k v) k = some v := by
  induction s with
  | nil => simp [scopeInsert, scopeLookup]
  | cons p rest ih =>
    obtain ⟨k0, v0⟩ := p
    by_cases h : k0 = k
    · simp [scopeInsert, h, scopeLookup]
    · simp [scopeInsert, h, scopeLookup, ih]

theorem setInnermost_append :
    ∀ (outer : List Scope) (inner : Scope) (k : String) (v : Expr),
      setInnermost (outer ++ [inner]) k v = outer ++ [scopeInsert inner k v]
  | [], _, _, _ => rfl
  | [_], _, _, _ => rfl
  | s :: s2 :: rest, inner, k, v => by
    have ih := setInnermost_append (s2 :: rest) inner k v
    simp only [List.cons_append] at ih ⊢
    show s :: setInnermost (s2 :: (rest ++ [inner])) k v = _
    rw [ih]

theorem Env.get_snoc (outer : List Scope) (inner : Scope) (k : String) :
    Env.get ⟨outer ++ [inner]⟩ k =
      ((scopeLookup inner k).or (Env.get ⟨outer⟩ k)) := by
  simp only [Env.get, List.reverse_append, List.reverse_singleton,
    List.singleton_append, List.findSome?]
  cases h : scopeLookup inner k <;> simp [h]

theorem Env.get_set_self (env : Env) (k : String) (v : Expr)
    (h : env.scope_stack ≠ []) : (env.set k v).get k = some v := by
  rcases List.eq_nil_or_concat env.scope_stack with hnil | ⟨outer, inner, hsplit⟩
  · exact absurd hnil h
  · obtain ⟨ss⟩ := env
    rw [List.concat_eq_append] at hsplit
    simp only at hsplit
    subst hsplit
    show Env.get ⟨setInnermost (outer ++ [inner]) k v⟩ k = some v
    rw [setInnermost_append, Env.get_snoc, scopeLookup_scopeInsert_self]
    rfl

theorem Env.get_clone_child (env : Env) (k : String) :
    env.clone_child.get k = env.get k := by
  obtain ⟨ss⟩ := env
  show Env.get ⟨ss ++ [[]]⟩ k = Env.get ⟨ss⟩ k
  rw [Env.get_snoc]
  rfl

/-- Claim C7: lookup scans the scope chain from the innermost (last)
scope to the outermost (first) and returns the first binding found
(an innermost binding shadows outer ones; a miss falls through to the
outer scopes); `set` writes into the innermost scope only; after
`set(x, v)` a lookup of `x` in the same environment or in any child
environment returns `v`; and the `get` primitive returns nil — not an
error — for an unbound name. -/
theorem C7_scope_chain_semantics :
    (∀ (outer : List Scope) (inner : Scope) (k : String) (v : Expr),
        scopeLookup inner k = some v → Env.get ⟨outer ++ [inner]⟩ k = some v) ∧
    (∀ (outer : List Scope) (inner : Scope) (k : String),
        scopeLookup inner k = none →
        Env.get ⟨outer ++ [inner]⟩ k = Env.get ⟨outer⟩ k) ∧
    (∀ (outer : List Scope) (inner : Scope) (k : String) (v : Expr),
        Env.set ⟨outer ++ [inner]⟩ k v = ⟨outer ++ [scopeInsert inner k v]⟩) ∧
    (∀ (env : Env) (k : String) (v : Expr), env.scope_stack ≠ [] →
        (env.set k v).get k = some v) ∧
    (∀ (env : Env) (k : String) (v : Expr), env.scope_stack ≠ [] →
        ((env.set k v).clone_child).get k = some v) ∧
    (∀ (env : Env) (k : String), env.get k = none → builtin_get env k = .nil) ∧
    (∀ k : String, Env.new.get k = none) := by
  refine ⟨?_, ?_, ?_, ?_, ?_, ?_, ?_⟩
  · intro outer inner k v h
    rw [Env.get_snoc, h]
    rfl
  · intro outer inner k h
    rw [Env.get_snoc, h]
    rfl
  · intro outer inner k v
    simp [Env.set, setInnermost_append]
  · exact Env.get_set_self
  · intro env k v h
    rw [Env.get_clone_child]
    exact Env.get_set_self env k v h
  · intro env k h
    simp [builtin_get, h]
  · intro k
    rfl

/-- Witness for C7 at concrete environments: an innermost binding shadows
an outer one; a miss in the innermost scope falls through; `set` extends
the innermost scope; set-then-get in the same and in a child environment;
unbound lookups give nil. -/
theorem C7_witness :
    Env.get ⟨[[("x", Expr.integer 7)], [("x", Expr.integer 5)]]⟩ "x"
      = some (.integer 5) ∧
    Env.get ⟨[[("x", Expr.integer 7)], []]⟩ "x"
      = Env.get ⟨[[("x", Expr.integer 7)]]⟩ "x" ∧
    Env.set ⟨[[("a", Expr.nil)], []]⟩ "x" (Expr.integer 5)
      = ⟨[[("a", Expr.nil)], [("x", Expr.integer 5)]]⟩ ∧
    (Env.new.set "x" (.integer 5)).get "x" = some (.integer 5) ∧
    ((Env.new.set "x" (.integer 5)).clone_child).get "x" = some (.integer 5) ∧
    builtin_get Env.new "y" = .nil ∧
    Env.new.get "z" = none :=
  ⟨C7_scope_chain_semantics.1 [[("x", Expr.integer 7)]] [("x", Expr.integer 5)]
      "x" (.integer 5) rfl,
   C7_scope_chain_semantics.2.1 [[("x", Expr.integer 7)]] [] "x" rfl,
   C7_scope_chain_semantics.2.2.1 [[("a", Expr.nil)]] [] "x" (.integer 5),
   C7_scope_chain_semantics.2.2.2.1 Env.new "x" (.integer 5) (by simp [Env.new]),
   C7_scope_chain_semantics.2.2.2.2.1 Env.new "x" (.integer 5)
      (by simp [Env.new]),
   C7_scope_chain_semantics.2.2.2.2.2.1 Env.new "y" rfl,
   C7_scope_chain_semantics.2.2.2.2.2.2 "z"⟩

/-- Claim C8: when the evaluated operator of a combination is a symbol
that is not a recognized primitive name — or is not a symbol at all —
evaluation wraps the evaluated operator and evaluated arguments in a new
combination instead of erroring. -/
theorem C8_unknown_operator_fallback :
    (∀ (fuel : Nat) (env env1 env2 : Env) (t : Expr) (args : List Expr)
        (s : String) (args2 : List Expr),
        eval fuel env t = .ok (.symbol s, env1) →
        evalListWith (eval fuel) env1 args = .ok (args2, env2) →
        s ∉ primNames →
        eval (fuel + 1) env (.combination t args)
          = .ok (.combination (.symbol s) args2, env2)) ∧
    (∀ (fuel : Nat) (env env1 env2 : Env) (t t2 : Expr)
        (args args2 : List Expr),
        eval fuel env t = .ok (t2, env1) →
        evalListWith (eval fuel) env1 args = .ok (args2, env2) →
        (∀ s, t2 ≠ .symbol s) →
        eval (fuel + 1) env (.combination t args)
          = .ok (.combination t2 args2, env2)) := by
  constructor
  · intro fuel env env1 env2 t args s args2 h1 h2 hs
    simp only [primNames, List.mem_cons, List.not_mem_nil, or_false] at hs
    push_neg at hs
    obtain ⟨h_set, h_get, h_car, h_cdr, h_cons, h_if, h_plus⟩ := hs
    simp [eval, h1, h2, applyEvaluatedWith, h_set, h_get, h_car, h_cdr,
      h_cons, h_if, h_plus]
  · intro fuel env env1 env2 t t2 args args2 h1 h2 ht
    cases t2 with
    | symbol s => exact absurd rfl (ht s)
    | _ => simp [eval, h1, h2, applyEvaluatedWith]

/-- Witness for C8: `(foo 1 2)` evaluates to itself, and a combination
whose operator evaluates to an integer is likewise rebuilt unchanged. -/
theorem C8_witness :
    eval 2 Env.new (.combination (.symbol "foo") [.integer 1, .integer 2])
      = .ok (.combination (.symbol "foo") [.integer 1, .integer 2], Env.new) ∧
    eval 2 Env.new (.combination (.integer 9) [.integer 1])
      = .ok (.combination (.integer 9) [.integer 1], Env.new) :=
  ⟨C8_unknown_operator_fallback.1 1 Env.new Env.new Env.new (.symbol "foo")
      [.integer 1, .integer 2] "foo" [.integer 1, .integer 2] rfl rfl
      (by decide),
   C8_unknown_operator_fallback.2 1 Env.new Env.new Env.new (.integer 9)
      (.integer 9) [.integer 1] [.integer 1] rfl rfl
      (fun s h => by cases h)⟩

/-- Claim C9 counterexample: `cdr` on a combination with a single
argument does not *signal an error* (a recoverable error value as the
specification defines errors): it panics, terminating the process.  The
result is the panic marker, not a catchable `Err`. -/
theorem C9_counterexample :
    eval 3 Env.new (.combination (.symbol "cdr")
        [.combination (.symbol "f") [.integer 1]])
      = .error (.panicked "cdr requires a list with at least two elements") ∧
    isCatchableErr (eval 3 Env.new (.combination (.symbol "cdr")
        [.combination (.symbol "f") [.integer 1]])) = false :=
  ⟨rfl, rfl⟩

/-- Claim C9 as amended: for an argument that evaluates to a combination
with operator `op` and arguments `[a, b, …]`, `car` returns `op` and
`cdr` returns the combination of `a` with the remaining arguments; but
when the argument combination has fewer than two arguments, or the
argument is not a combination at all, `cdr` panics (with the copy-pasted
message `"car requires a list"` in the non-combination case) instead of
returning a recoverable error. -/
theorem C9_car_cdr_semantics :
    (∀ (fuel : Nat) (env env1 : Env) (x op : Expr) (as2 : List Expr),
        eval fuel env x = .ok (.combination op as2, env1) →
        eval (fuel + 1) env (.combination (.symbol "car") [x])
          = .ok (op, env1)) ∧
    (∀ (fuel : Nat) (env env1 : Env) (x op a b : Expr) (rest : List Expr),
        eval fuel env x = .ok (.combination op (a :: b :: rest), env1) →
        eval (fuel + 1) env (.combination (.symbol "cdr") [x])
          = .ok (.combination a (b :: rest), env1)) ∧
    (∀ (fuel : Nat) (env env1 : Env) (x op : Expr) (as2 : List Expr),
        as2.length ≤ 1 →
        eval fuel env x = .ok (.combination op as2, env1) →
        eval (fuel + 1) env (.combination (.symbol "cdr") [x])
          = .error (.panicked "cdr requires a list with at least two elements")) ∧
    (∀ (fuel : Nat) (env env1 : Env) (x v : Expr),
        eval fuel env x = .ok (v, env1) →
        (∀ op as2, v ≠ .combination op as2) →
        eval (fuel + 1) env (.combination (.symbol "cdr") [x])
          = .error (.panicked "car requires a list")) := by
  refine ⟨?_, ?_, ?_, ?_⟩
  · intro fuel env env1 x op as2 h
    cases fuel with
    | zero => simp [eval] at h
    | succ f =>
      simp +decide [eval_combination, eval_symbol, evalListWith_cons,
        evalListWith_nil, h, applyEvaluatedWith, List.get?]
  · intro fuel env env1 x op a b rest h
    cases fuel with
    | zero => simp [eval] at h
    | succ f =>
      simp +decide [eval_combination, eval_symbol, evalListWith_cons,
        evalListWith_nil, h, applyEvaluatedWith, List.get?]
  · intro fuel env env1 x op as2 hlen h
    cases fuel with
    | zero => simp [eval] at h
    | succ f =>
      match as2, hlen with
      | [], _ =>
        simp +decide [eval_combination, eval_symbol, evalListWith_cons,
          evalListWith_nil, h, applyEvaluatedWith, List.get?]
      | [a], _ =>
        simp +decide [eval_combination, eval_symbol, evalListWith_cons,
          evalListWith_nil, h, applyEvaluatedWith, List.get?]
  · intro fuel env env1 x v h hv
    cases fuel with
    | zero => simp [eval] at h
    | succ f =>
      cases v with
      | combination op as2 => exact absurd rfl (hv op as2)
      | _ =>
        simp +decide [eval_combination, eval_symbol, evalListWith_cons,
          evalListWith_nil, h, applyEvaluatedWith, List.get?]

/-- Witness for C9's amended theorem: `car`/`cdr` on `(f 1 2)` and the
two panic-producing shapes at concrete inputs. -/
theorem C9_witness :
    eval 3 Env.new (.combination (.symbol "car")
        [.combination (.symbol "f") [.integer 1, .integer 2]])
      = .ok (.symbol "f", Env.new) ∧
    eval 3 Env.new (.combination (.symbol "cdr")
        [.combination (.symbol "f") [.integer 1, .integer 2]])
      = .ok (.combination (.integer 1) [.integer 2], Env.new) ∧
    eval 3 Env.new (.combination (.symbol "cdr")
        [.combination (.symbol "f") []])
      = .error (.panicked "cdr requires a list with at least two elements") ∧
    eval 2 Env.new (.combination (.symbol "cdr") [.integer 4])
      = .error (.panicked "car requires a list") :=
  ⟨C9_car_cdr_semantics.1 2 Env.new Env.new
      (.combination (.symbol "f") [.integer 1, .integer 2]) (.symbol "f")
      [.integer 1, .integer 2] rfl,
   C9_car_cdr_semantics.2.1 2 Env.new Env.new
      (.combination (.symbol "f") [.integer 1, .integer 2]) (.symbol "f")
      (.integer 1) (.integer 2) [] rfl,
   C9_car_cdr_semantics.2.2.1 2 Env.new Env.new
      (.combination (.symbol "f") []) (.symbol "f") [] (by decide) rfl,
   C9_car_cdr_semantics.2.2.2 1 Env.new Env.new (.integer 4) (.integer 4)
      rfl (fun op as2 h => by cases h)⟩

/-- Claim C10: `set`, `get`, `car`, `cdr` and `cons` never check for
surplus arguments — with extra evaluated arguments beyond their arity they
behave exactly as with the leading one (leading two for `set`) — while
`if` alone demands an exact count, panicking unless given exactly three
arguments. -/
theorem C10_extra_arguments_ignored :
    (∀ (ev : Env → Expr → Except EvalErr (Expr × Env)) (env : Env)
        (a b : Expr) (extra : List Expr),
        applyEvaluatedWith ev env (.symbol "set") (a :: b :: extra)
          = applyEvaluatedWith ev env (.symbol "set") [a, b]) ∧
    (∀ ev env (a : Expr) (extra : List Expr),
        applyEvaluatedWith ev env (.symbol "get") (a :: extra)
          = applyEvaluatedWith ev env (.symbol "get") [a]) ∧
    (∀ ev env (a : Expr) (extra : List Expr),
        applyEvaluatedWith ev env (.symbol "car") (a :: extra)
          = applyEvaluatedWith ev env (.symbol "car") [a]) ∧
    (∀ ev env (a : Expr) (extra : List Expr),
        applyEvaluatedWith ev env (.symbol "cdr") (a :: extra)
          = applyEvaluatedWith ev env (.symbol "cdr") [a]) ∧
    (∀ ev env (a : Expr) (extra : List Expr),
        applyEvaluatedWith ev env (.symbol "cons") (a :: extra)
          = applyEvaluatedWith ev env (.symbol "cons") [a]) ∧
    (∀ ev env (args : List Expr), args.length ≠ 3 →
        applyEvaluatedWith ev env (.symbol "if") args
          = .error (.panicked "if requires three arguments")) := by
  refine ⟨?_, ?_, ?_, ?_, ?_, ?_⟩
  · intro ev env a b extra
    simp +decide [applyEvaluatedWith, List.get?]
  · intro ev env a extra
    simp +decide [applyEvaluatedWith, List.get?]
  · intro ev env a extra
    simp +decide [applyEvaluatedWith, List.get?]
  · intro ev env a extra
    simp +decide [applyEvaluatedWith, List.get?]
  · intro ev env a extra
    simp +decide [applyEvaluatedWith, List.get?]
  · intro ev env args h
    match args, h with
    | [], _ => simp +decide [applyEvaluatedWith]
    | [a], _ => simp +decide [applyEvaluatedWith]
    | [a, b], _ => simp +decide [applyEvaluatedWith]
    | [a, b, c], h => exact absurd rfl h
    | a :: b :: c :: d :: rest, _ => simp +decide [applyEvaluatedWith]

/-- Witness for C10 at concrete arguments: each primitive with one
surplus argument, and `if` with a single argument. -/
theorem C10_witness :
    applyEvaluatedWith (eval 1) Env.new (.symbol "set")
        [.symbol "x", .integer 5, .integer 6]
      = applyEvaluatedWith (eval 1) Env.new (.symbol "set")
        [.symbol "x", .integer 5] ∧
    applyEvaluatedWith (eval 1) Env.new (.symbol "get")
        [.symbol "x", .integer 9]
      = applyEvaluatedWith (eval 1) Env.new (.symbol "get") [.symbol "x"] ∧
    applyEvaluatedWith (eval 1) Env.new (.symbol "car")
        [.combination (.symbol "f") [.integer 1], .integer 9]
      = applyEvaluatedWith (eval 1) Env.new (.symbol "car")
        [.combination (.symbol "f") [.integer 1]] ∧
    applyEvaluatedWith (eval 1) Env.new (.symbol "cdr")
        [.combination (.symbol "f") [.integer 1, .integer 2], .integer 9]
      = applyEvaluatedWith (eval 1) Env.new (.symbol "cdr")
        [.combination (.symbol "f") [.integer 1, .integer 2]] ∧
    applyEvaluatedWith (eval 1) Env.new (.symbol "cons")
        [.combination (.symbol "f") [.integer 1], .integer 9]
      = applyEvaluatedWith (eval 1) Env.new (.symbol "cons")
        [.combination (.symbol "f") [.integer 1]] ∧
    applyEvaluatedWith (eval 1) Env.new (.symbol "if") [.boolean true]
      = .error (.panicked "if requires three arguments") :=
  ⟨C10_extra_arguments_ignored.1 (eval 1) Env.new (.symbol "x") (.integer 5)
      [.integer 6],
   C10_extra_arguments_ignored.2.1 (eval 1) Env.new (.symbol "x") [.integer 9],
   C10_extra_arguments_ignored.2.2.1 (eval 1) Env.new
      (.combination (.symbol "f") [.integer 1]) [.integer 9],
   C10_extra_arguments_ignored.2.2.2.1 (eval 1) Env.new
      (.combination (.symbol "f") [.integer 1, .integer 2]) [.integer 9],
   C10_extra_arguments_ignored.2.2.2.2.1 (eval 1) Env.new
      (.combination (.symbol "f") [.integer 1]) [.integer 9],
   C10_extra_arguments_ignored.2.2.2.2.2 (eval 1) Env.new [.boolean true]
      (by decide)⟩

/-! ### Lemmas about the `+` accumulator -/

theorem plusLoop_signed_ints (l : List Int) :
    ∀ n : Int, plusLoop (.signed n) (l.map .integer)
      = .ok (.signed (intFoldFrom n l)) := by
  induction l with
  | nil => intro n; rfl
  | cons i rest ih =>
    intro n
    simpa [plusLoop, intFoldFrom] using ih (wrapI64 (n + i))

theorem plusLoop_floatN_numeric (args : List Expr) :
    ∀ q : ℚ, (∀ a ∈ args, isNumericExpr a = true) →
      ∃ q2, plusLoop (.floatN q) args = .ok (.floatN q2) := by
  induction args with
  | nil => exact fun q _ => ⟨q, rfl⟩
  | cons a rest ih =>
    intro q hnum
    have ha := hnum a (by simp)
    have hrest : ∀ b ∈ rest, isNumericExpr b = true :=
      fun b hb => hnum b (by simp [hb])
    cases a with
    | integer i => simpa [plusLoop] using ih (q + (i : ℚ)) hrest
    | float f => simpa [plusLoop] using ih (q + f) hrest
    | _ => simp [isNumericExpr] at ha

theorem plusLoop_signed_promotes (args : List Expr) :
    ∀ n : Int, (∀ a ∈ args, isNumericExpr a = true) →
      hasFloatArg args = true →
      ∃ q, plusLoop (.signed n) args = .ok (.floatN q) := by
  induction args with
  | nil => intro n _ hf; simp [hasFloatArg] at hf
  | cons a rest ih =>
    intro n hnum hf
    have ha := hnum a (by simp)
    have hrest : ∀ b ∈ rest, isNumericExpr b = true :=
      fun b hb => hnum b (by simp [hb])
    cases a with
    | integer i =>
      have hf2 : hasFloatArg rest = true := by
        simpa [hasFloatArg] using hf
      simpa [plusLoop] using ih (wrapI64 (n + i)) hrest hf2
    | float f =>
      simpa [plusLoop] using plusLoop_floatN_numeric rest ((n : ℚ) + f) hrest
    | _ => simp [isNumericExpr] at ha

theorem plusLoop_zero_promotes (args : List Expr)
    (hnum : ∀ a ∈ args, isNumericExpr a = true)
    (hf : hasFloatArg args = true) :
    ∃ q, plusLoop .zero args = .ok (.floatN q) := by
  cases args with
  | nil => simp [hasFloatArg] at hf
  | cons a rest =>
    have ha := hnum a (by simp)
    have hrest : ∀ b ∈ rest, isNumericExpr b = true :=
      fun b hb => hnum b (by simp [hb])
    cases a with
    | integer i =>
      have hf2 : hasFloatArg rest = true := by
        simpa [hasFloatArg] using hf
      simpa [plusLoop] using plusLoop_signed_promotes rest i hrest hf2
    | float f =>
      simpa [plusLoop] using plusLoop_floatN_numeric rest f hrest
    | _ => simp [isNumericExpr] at ha

theorem plusLoop_abort (pre : List Expr) :
    ∀ (st : Number) (x : Expr) (rest : List Expr),
      (∀ m, st ≠ .unsigned m) →
      (∀ a ∈ pre, isNumericExpr a = true) → isNumericExpr x = false →
      plusLoop st (pre ++ x :: rest) = .error (.err (plusErrMsg x)) := by
  induction pre with
  | nil =>
    intro st x rest hst _ hx
    cases st with
    | unsigned m => exact absurd rfl (hst m)
    | zero =>
      cases x <;> first
        | rfl
        | simp [isNumericExpr] at hx
    | signed n =>
      cases x <;> first
        | rfl
        | simp [isNumericExpr] at hx
    | floatN q =>
      cases x <;> first
        | rfl
        | simp [isNumericExpr] at hx
  | cons a pre2 ih =>
    intro st x rest hst hpre hx
    have ha := hpre a (by simp)
    have hpre2 : ∀ b ∈ pre2, isNumericExpr b = true :=
      fun b hb => hpre b (by simp [hb])
    cases st with
    | unsigned m => exact absurd rfl (hst m)
    | zero =>
      cases a with
      | integer i =>
        show plusLoop (.signed i) (pre2 ++ x :: rest) = _
        exact ih (.signed i) x rest (fun m h => by cases h) hpre2 hx
      | float f =>
        show plusLoop (.floatN f) (pre2 ++ x :: rest) = _
        exact ih (.floatN f) x rest (fun m h => by cases h) hpre2 hx
      | _ => simp [isNumericExpr] at ha
    | signed n =>
      cases a with
      | integer i =>
        show plusLoop (.signed (wrapI64 (n + i))) (pre2 ++ x :: rest) = _
        exact ih _ x rest (fun m h => by cases h) hpre2 hx
      | float f =>
        show plusLoop (.floatN ((n : ℚ) + f)) (pre2 ++ x :: rest) = _
        exact ih _ x rest (fun m h => by cases h) hpre2 hx
      | _ => simp [isNumericExpr] at ha
    | floatN q =>
      cases a with
      | integer i =>
        show plusLoop (.floatN (q + (i : ℚ))) (pre2 ++ x :: rest) = _
        exact ih _ x rest (fun m h => by cases h) hpre2 hx
      | float f =>
        show plusLoop (.floatN (q + f)) (pre2 ++ x :: rest) = _
        exact ih _ x rest (fun m h => by cases h) hpre2 hx
      | _ => simp [isNumericExpr] at ha

/-- Claim C6: `+` accumulates left to right from an untyped zero; a list
of integers stays an integer (zero arguments giving integer `0`); any
float argument among numerics promotes the result to a float; `[1, 2]`
gives integer `3` and `[1, 2.5]` gives float `3.5`; and the first
non-numeric argument aborts the accumulation with a recoverable error
naming the offending value. -/
theorem C6_plus_accumulation :
    (∀ (ev : Env → Expr → Except EvalErr (Expr × Env)) (env : Env),
        applyEvaluatedWith ev env (.symbol "+") [] = .ok (.integer 0, env)) ∧
    (∀ (ev : Env → Expr → Except EvalErr (Expr × Env)) (env : Env),
        applyEvaluatedWith ev env (.symbol "+") [.integer 1, .integer 2]
          = .ok (.integer 3, env)) ∧
    (∀ (ev : Env → Expr → Except EvalErr (Expr × Env)) (env : Env),
        applyEvaluatedWith ev env (.symbol "+") [.integer 1, .float (5 / 2)]
          = .ok (.float (7 / 2), env)) ∧
    (∀ (is : List Int) (ev : Env → Expr → Except EvalErr (Expr × Env))
        (env : Env),
        applyEvaluatedWith ev env (.symbol "+") (is.map .integer)
          = .ok (.integer (match is with
              | [] => 0
              | i :: rest => intFoldFrom i rest), env)) ∧
    (∀ (args : List Expr) (ev : Env → Expr → Except EvalErr (Expr × Env))
        (env : Env),
        (∀ a ∈ args, isNumericExpr a = true) → hasFloatArg args = true →
        ∃ q, applyEvaluatedWith ev env (.symbol "+") args
          = .ok (.float q, env)) ∧
    (∀ (pre : List Expr) (x : Expr) (rest : List Expr)
        (ev : Env → Expr → Except EvalErr (Expr × Env)) (env : Env),
        (∀ a ∈ pre, isNumericExpr a = true) → isNumericExpr x = false →
        applyEvaluatedWith ev env (.symbol "+") (pre ++ x :: rest)
          = .error (.err (plusErrMsg x))) := by
  refine ⟨fun ev env => rfl, fun ev env => rfl, ?_, ?_, ?_, ?_⟩
  · intro ev env
    simp +decide [applyEvaluatedWith, plusLoop]
    norm_num
  · intro is ev env
    cases is with
    | nil => rfl
    | cons i rest =>
      have h := plusLoop_signed_ints rest i
      simp +decide [applyEvaluatedWith, plusLoop, h]
  · intro args ev env hnum hf
    obtain ⟨q, hq⟩ := plusLoop_zero_promotes args hnum hf
    exact ⟨q, by simp +decide [applyEvaluatedWith, hq]⟩
  · intro pre x rest ev env hpre hx
    have h := plusLoop_abort pre .zero x rest (fun m hm => by cases hm) hpre hx
    simp +decide [applyEvaluatedWith, h]

/-- Witness for C6 at concrete arguments: an all-integer sum, a promoted
sum containing a float, and an accumulation aborted by a string. -/
theorem C6_witness :
    applyEvaluatedWith (eval 1) Env.new (.symbol "+")
        [.integer 2, .integer 3, .integer 4] = .ok (.integer 9, Env.new) ∧
    (applyEvaluatedWith (eval 1) Env.new (.symbol "+")
        [.float (1 / 2), .integer 1]).isOk = true ∧
    applyEvaluatedWith (eval 1) Env.new (.symbol "+")
        [.integer 1, .string "nope", .integer 2]
      = .error (.err (plusErrMsg (.string "nope"))) := by
  refine ⟨?_, ?_, ?_⟩
  · have h := C6_plus_accumulation.2.2.2.1 [2, 3, 4] (eval 1) Env.new
    simpa [intFoldFrom, wrapI64] using h
  · obtain ⟨q, hq⟩ := C6_plus_accumulation.2.2.2.2.1
      [.float (1 / 2), .integer 1] (eval 1) Env.new
      (by intro a ha; fin_cases ha <;> rfl) rfl
    rw [hq]
    rfl
  · exact C6_plus_accumulation.2.2.2.2.2 [.integer 1] (.string "nope")
      [.integer 2] (eval 1) Env.new (by intro a ha; fin_cases ha <;> rfl) rfl

/-! ### Lemmas about the source store -/

theorem atlasLookup_mem (atlas : Atlas) (sha : List Nat) (c : Code)
    (h : atlasLookup atlas sha = some c) : (sha, c) ∈ atlas := by
  induction atlas with
  | nil => simp [atlasLookup] at h
  | cons p rest ih =>
    obtain ⟨k, c0⟩ := p
    by_cases hk : k = sha
    · subst hk
      simp [atlasLookup] at h
      simp [h]
    · simp [atlasLookup, hk] at h
      simp [ih h]

theorem atlasLookup_none_not_mem (atlas : Atlas) (sha : List Nat)
    (h : atlasLookup atlas sha = none) : ∀ p ∈ atlas, p.1 ≠ sha := by
  induction atlas with
  | nil => simp
  | cons p rest ih =>
    obtain ⟨k, c0⟩ := p
    by_cases hk : k = sha
    · subst hk; simp [atlasLookup] at h
    · simp [atlasLookup, hk] at h
      intro q hq
      rcases List.mem_cons.mp hq with hq2 | hq2
      · subst hq2; exact hk
      · exact ih h q hq2

theorem atlasLookup_append_of_none (atlas : Atlas) (sha : List Nat) (c : Code)
    (h : atlasLookup atlas sha = none) :
    atlasLookup (atlas ++ [(sha, c)]) sha = some c := by
  induction atlas with
  | nil => simp [atlasLookup]
  | cons p rest ih =>
    obtain ⟨k, c0⟩ := p
    by_cases hk : k = sha
    · subst hk; simp [atlasLookup] at h
    · simp [atlasLookup, hk] at h ⊢
      exact ih h

/-- Claim C5: interning is idempotent — a second load of identical
content (regardless of origin) returns the same handle and leaves the
registry untouched, so both loads share one registered buffer; under an
injective (collision-free) digest, loads of distinct contents return
distinct handles; and the registry keeps its key discipline and its
at-most-one-buffer-per-content invariant across every load. -/
theorem C5_interning :
    (∀ (digest : String → List Nat) (atlas : Atlas) (text : String)
        (fp1 fp2 : Option String),
        (Code.intern digest (Code.intern digest atlas text fp1).2 text fp2).1
          = (Code.intern digest atlas text fp1).1 ∧
        (Code.intern digest (Code.intern digest atlas text fp1).2 text fp2).2
          = (Code.intern digest atlas text fp1).2) ∧
    (∀ (digest : String → List Nat) (atlas : Atlas) (text : String)
        (fp : Option String), Function.Injective digest →
        AtlasKeyed digest atlas →
        (Code.intern digest atlas text fp).1.text = text) ∧
    (∀ (digest : String → List Nat) (a1 a2 : Atlas) (t1 t2 : String)
        (fp1 fp2 : Option String), Function.Injective digest →
        AtlasKeyed digest a1 → AtlasKeyed digest a2 → t1 ≠ t2 →
        (Code.intern digest a1 t1 fp1).1 ≠ (Code.intern digest a2 t2 fp2).1) ∧
    (∀ (digest : String → List Nat) (atlas : Atlas) (text : String)
        (fp : Option String), AtlasKeyed digest atlas →
        AtlasKeyed digest (Code.intern digest atlas text fp).2) ∧
    (∀ (digest : String → List Nat) (atlas : Atlas) (text : String)
        (fp : Option String), Function.Injective digest →
        AtlasKeyed digest atlas → AtlasOnePerContent atlas →
        AtlasOnePerContent (Code.intern digest atlas text fp).2) := by
  have htext : ∀ (digest : String → List Nat) (atlas : Atlas) (text : String)
      (fp : Option String), Function.Injective digest →
      AtlasKeyed digest atlas →
      (Code.intern digest atlas text fp).1.text = text := by
    intro digest atlas text fp hinj hkey
    simp only [Code.intern]
    cases h : atlasLookup atlas (digest text) with
    | none => simp [h]
    | some c =>
      simp only [h]
      have hmem := atlasLookup_mem atlas (digest text) c h
      have hk := hkey _ hmem
      simp only at hk
      exact (hinj hk).symm
  refine ⟨?_, htext, ?_, ?_, ?_⟩
  · intro digest atlas text fp1 fp2
    simp only [Code.intern]
    cases h : atlasLookup atlas (digest text) with
    | some c => simp [h]
    | none =>
      simp only [h]
      rw [atlasLookup_append_of_none atlas (digest text) _ h]
      simp
  · intro digest a1 a2 t1 t2 fp1 fp2 hinj hk1 hk2 hne heq
    have h1 := htext digest a1 t1 fp1 hinj hk1
    have h2 := htext digest a2 t2 fp2 hinj hk2
    rw [heq, h2] at h1
    exact hne h1.symm
  · intro digest atlas text fp hkey
    simp only [Code.intern]
    cases h : atlasLookup atlas (digest text) with
    | some c => simpa [h] using hkey
    | none =>
      simp only [h]
      intro p hp
      rcases List.mem_append.mp hp with hp | hp
      · exact hkey p hp
      · simp at hp
        subst hp
        rfl
  · intro digest atlas text fp hinj hkey hone
    simp only [Code.intern]
    cases h : atlasLookup atlas (digest text) with
    | some c => simpa [h] using hone
    | none =>
      simp only [h]
      intro p hp q hq htxt
      have hnot := atlasLookup_none_not_mem atlas (digest text) h
      rcases List.mem_append.mp hp with hp | hp <;>
        rcases List.mem_append.mp hq with hq | hq
      · exact hone p hp q hq htxt
      · simp at hq
        subst hq
        exfalso
        apply hnot p hp
        have := hkey p hp
        simp only at htxt
        rw [this, htxt]
      · simp at hp
        subst hp
        exfalso
        apply hnot q hq
        have := hkey q hq
        simp only at htxt
        rw [this, ← htxt]
      · simp at hp hq
        rw [hp, hq]

theorem digest0_injective : Function.Injective digest0 := by
  intro a b h
  unfold digest0 at h
  have hchar : Function.Injective Char.toNat :=
    fun c d hcd => Char.ext (UInt32.ext hcd)
  exact String.ext (List.map_injective_iff.mpr hchar h)

/-- Witness for C5: concrete loads into an empty registry — `"a"` twice
(once as a snippet, once under a file path), then `"b"`. -/
theorem C5_witness :
    (Code.intern digest0 (Code.intern digest0 [] "a" none).2 "a"
        (some "dir/f.st")).1 = (Code.intern digest0 [] "a" none).1 ∧
    (Code.intern digest0 (Code.intern digest0 [] "a" none).2 "a"
        (some "dir/f.st")).2 = (Code.intern digest0 [] "a" none).2 ∧
    (Code.intern digest0 [] "a" none).1.text = "a" ∧
    (Code.intern digest0 [] "a" none).1 ≠ (Code.intern digest0 [] "b" none).1 ∧
    AtlasKeyed digest0 (Code.intern digest0 [] "a" none).2 ∧
    AtlasOnePerContent (Code.intern digest0 [] "a" none).2 := by
  have hkey : AtlasKeyed digest0 [] :=
    fun p hp => absurd hp (List.not_mem_nil p)
  have hone : AtlasOnePerContent ([] : Atlas) :=
    fun p hp => absurd hp (List.not_mem_nil p)
  exact ⟨(C5_interning.1 digest0 [] "a" none (some "dir/f.st")).1,
    (C5_interning.1 digest0 [] "a" none (some "dir/f.st")).2,
    C5_interning.2.1 digest0 [] "a" none digest0_injective hkey,
    C5_interning.2.2.1 digest0 [] [] "a" "b" none none digest0_injective
      hkey hkey (by decide),
    C5_interning.2.2.2.1 digest0 [] "a" none hkey,
    C5_interning.2.2.2.2 digest0 [] "a" none digest0_injective hkey hone⟩

/-- Claim C1 (code_bug evidence): malformed primitive invocations do not
come back as catchable errors — `set` with one argument, `get` with a
non-symbol, `car` on a non-combination and `if` with a non-boolean
condition all `panic!`, terminating the process, exactly the behavior the
specification rules out.  Only `+` with a non-numeric argument conforms,
returning a recoverable `Err`. -/
theorem C1_malformed_primitive_calls_panic :
    eval 2 Env.new (.combination (.symbol "set") [.symbol "x"])
      = .error (.panicked "set requires two arguments") ∧
    eval 2 Env.new (.combination (.symbol "get") [.integer 1])
      = .error (.panicked "get requires a Symbol key") ∧
    eval 2 Env.new (.combination (.symbol "car") [.integer 1])
      = .error (.panicked "car requires a list") ∧
    eval 2 Env.new
        (.combination (.symbol "if") [.integer 7, .integer 1, .integer 2])
      = .error (.panicked "if requires a boolean condition") ∧
    eval 2 Env.new (.combination (.symbol "+") [.string "nope"])
      = .error (.err
          "Invalid argument for '+': expected Integer or Float, found String(\"nope\")") :=
  ⟨rfl, rfl, rfl, rfl, rfl⟩

/-- Claim C4 (code_bug evidence): parsing `"1_000"` does not consume the
whole literal — `recognize_float` never matches an underscore, so the
underscore-stripping step of `parse_number` is dead code.  The parse
consumes only `"1"` (span `[0, 1)`) and, because `complete_expr` ignores
the unconsumed remainder `"_000"`, succeeds with integer `1` instead of
`1000`. -/
theorem C4_underscore_literal_not_consumed :
    parseSnippet "1_000"
      = .ok ⟨.integer 1, ⟨"1_000".data, 0, 1⟩⟩ := rfl

/-- Claim C2 counterexample: the input `"42 43"` leaves the non-whitespace
suffix `"43"` unconsumed after the first expression, yet the top-level
parse succeeds (with integer `42`) instead of failing with a diagnostic:
`complete_expr` discards the remaining input without checking it. -/
theorem C2_counterexample :
    parseSnippet "42 43" = .ok ⟨.integer 42, ⟨"42 43".data, 0, 2⟩⟩ := rfl

/-- Claim C3 counterexample: sub-expressions of a parsed combination carry
no span.  `"(f 1)"` and `"(f  1)"` consume the child `1` at different byte
ranges (`[3, 4)` versus `[4, 5)`), yet the parse results are identical
except for the top-level span: the children are bare `Expr` values,
because `parse_combination_inner` maps every child `Spanned` to its
`.value`.  No span for any sub-expression exists in the output, so the
claim's "every sub-expression likewise carries a span" fails. -/
theorem C3_counterexample :
    parseSnippet "(f 1)"
      = .ok ⟨.combination (.symbol "f") [.integer 1], ⟨"(f 1)".data, 0, 5⟩⟩ ∧
    parseSnippet "(f  1)"
      = .ok ⟨.combination (.symbol "f") [.integer 1], ⟨"(f  1)".data, 0, 6⟩⟩ :=
  ⟨rfl, rfl⟩

/-! ### Consumption lemmas: every parser returns a suffix of its input -/


theorem sufP_pAlt2 {α : Type} {p q : Parsec α} (hp : SufP p) (hq : SufP q) :
    SufP (pAlt2 p q) := by
  intro i r a h
  unfold pAlt2 at h
  split at h
  · cases h
    exact hp i _ _ ‹_›
  · cases h
  · split at h
    · cases h
      exact hq i _ _ ‹_›
    · cases h
    · cases h

theorem sufP_pOpt {α : Type} {p : Parsec α} (hp : SufP p) : SufP (pOpt p) := by
  intro i r a h
  unfold pOpt at h
  split at h
  · cases h
    exact hp i _ _ ‹_›
  · cases h
    exact List.suffix_refl i
  · cases h

theorem sufP_pCut {α : Type} {p : Parsec α} (hp : SufP p) : SufP (pCut p) := by
  intro i r a h
  unfold pCut at h
  split at h
  · cases h
    exact hp i _ _ ‹_›
  · cases h
  · cases h

theorem sufP_pSeq {α β : Type} {p : Parsec α} {q : Parsec β}
    (hp : SufP p) (hq : SufP q) : SufP (pSeq p q) := by
  intro i r a h
  unfold pSeq at h
  split at h
  · cases h
  · rename_i r1 a1 heq1
    split at h
    · cases h
    · cases h
      exact (hq r1 _ _ ‹_›).trans (hp i _ _ heq1)

theorem sufP_pMap {α β : Type} {p : Parsec α} (f : α → β) (hp : SufP p) :
    SufP (pMap p f) := by
  intro i r a h
  unfold pMap at h
  split at h
  · cases h
  · cases h
    exact hp i _ _ ‹_›

theorem sufP_pUnit {α : Type} {p : Parsec α} (hp : SufP p) : SufP (pUnit p) :=
  sufP_pMap _ hp

theorem sufP_pRecognize {α : Type} {p : Parsec α} (hp : SufP p) :
    SufP (pRecognize p) := by
  intro i r a h
  unfold pRecognize at h
  split at h
  · cases h
  · cases h
    exact hp i _ _ ‹_›

theorem sufP_pDelimited {α β γ : Type} {l : Parsec α} {m : Parsec β}
    {r : Parsec γ} (hl : SufP l) (hm : SufP m) (hr : SufP r) :
    SufP (pDelimited l m r) := by
  intro i rr a h
  unfold pDelimited at h
  split at h
  · cases h
  · rename_i i1 x1 heq1
    split at h
    · cases h
    · rename_i i2 x2 heq2
      split at h
      · cases h
      · rename_i i3 x3 heq3
        cases h
        exact ((hr i2 _ _ heq3).trans (hm i1 _ _ heq2)).trans (hl i _ _ heq1)

theorem sufP_pSeparatedPair {α β γ : Type} {p : Parsec α} {sep : Parsec β}
    {q : Parsec γ} (hp : SufP p) (hsep : SufP sep) (hq : SufP q) :
    SufP (pSeparatedPair p sep q) := by
  intro i r a h
  unfold pSeparatedPair at h
  split at h
  · cases h
  · rename_i i1 x1 heq1
    split at h
    · cases h
    · rename_i i2 x2 heq2
      split at h
      · cases h
      · rename_i i3 x3 heq3
        cases h
        exact ((hq i2 _ _ heq3).trans (hsep i1 _ _ heq2)).trans (hp i _ _ heq1)

theorem sufP_pChar (src : List Char) (c : Char) : SufP (pChar src c) := by
  intro i r a h
  unfold pChar at h
  split at h
  · cases h
  · split at h
    · cases h
      exact List.suffix_cons _ _
    · cases h

theorem sufP_pTag (src : List Char) (c : Char) : SufP (pTag src c) := by
  intro i r a h
  unfold pTag at h
  split at h
  · split at h
    · cases h
      exact List.suffix_cons _ _
    · cases h
  · cases h

theorem sufP_pTakeWhile1 (src : List Char) (f : Char → Bool) (kind : NomKind) :
    SufP (pTakeWhile1 src f kind) := by
  intro i r a h
  unfold pTakeWhile1 at h
  by_cases hc : (i.takeWhile f).isEmpty <;> simp [hc] at h
  obtain ⟨h1, h2⟩ := h
  subst h1
  exact List.dropWhile_suffix f

theorem sufP_pMultispace0 : SufP pMultispace0 := by
  intro i r a h
  unfold pMultispace0 at h
  cases h
  exact List.dropWhile_suffix isSpaceChar

theorem sufP_pDigit1 (src : List Char) : SufP (pDigit1 src) :=
  sufP_pTakeWhile1 src isDigitChar .digit

theorem sufP_pSign (src : List Char) : SufP (pSign src) :=
  sufP_pOpt (sufP_pAlt2 (sufP_pChar src _) (sufP_pChar src _))

theorem sufP_recognizeFloat (src : List Char) : SufP (recognizeFloat src) := by
  unfold recognizeFloat recognizeFloatBody
  exact sufP_pRecognize (sufP_pUnit (sufP_pSeq (sufP_pSign src)
    (sufP_pSeq
      (sufP_pAlt2
        (sufP_pUnit (sufP_pSeq (sufP_pDigit1 src)
          (sufP_pOpt (sufP_pSeq (sufP_pChar src _)
            (sufP_pOpt (sufP_pDigit1 src))))))
        (sufP_pUnit (sufP_pSeq (sufP_pChar src _) (sufP_pDigit1 src))))
      (sufP_pOpt (sufP_pSeq (sufP_pAlt2 (sufP_pChar src _) (sufP_pChar src _))
        (sufP_pSeq (sufP_pSign src) (sufP_pCut (sufP_pDigit1 src))))))))

theorem sufP_parseNumber (src : List Char) : SufP (parseNumber src) := by
  intro i r a h
  unfold parseNumber at h
  split at h
  · cases h
  · rename_i r1 frag heq1
    split at h
    · cases h
      exact sufP_recognizeFloat src i _ _ heq1
    · cases h

theorem sufP_parseSymbol (src : List Char) : SufP (parseSymbol src) := by
  intro i r a h
  unfold parseSymbol at h
  split at h
  · cases h
  · cases h
    exact sufP_pTakeWhile1 src isSymbolChar .takeWhile1 i _ _ ‹_›

theorem sufP_spanned {α : Type} (src : List Char) {p : Parsec α}
    (hp : SufP p) : SufP (spanned src p) := by
  intro i r a h
  unfold spanned at h
  split at h
  · cases h
  · cases h
    exact hp i _ _ ‹_›

theorem sufP_sepList1Aux {α : Type} {sep : Parsec Unit} {p : Parsec α}
    (src : List Char) (hsep : SufP sep) (hp : SufP p) :
    ∀ (f : Nat) (i : List Char) (acc : List α) (r : List Char) (out : List α),
      sepList1Aux sep p src f i acc = .ok (r, out) → r <:+ i := by
  intro f
  induction f with
  | zero => intro i acc r out h; simp [sepList1Aux] at h
  | succ f2 ih =>
    intro i acc r out h
    unfold sepList1Aux at h
    split at h
    · cases h
      exact List.suffix_refl i
    · cases h
    · rename_i i1 x1 heq1
      split at h
      · cases h
        exact List.suffix_refl i
      · cases h
      · rename_i i2 a2 heq2
        split at h
        · cases h
        · exact ((ih i2 _ _ _ h).trans (hp i1 _ _ heq2)).trans
            (hsep i _ _ heq1)

theorem sufP_sepList1 {α : Type} {sep : Parsec Unit} {p : Parsec α}
    (src : List Char) (hsep : SufP sep) (hp : SufP p) :
    SufP (sepList1 sep p src) := by
  intro i r a h
  unfold sepList1 at h
  split at h
  · cases h
  · rename_i i1 a1 heq1
    exact (sufP_sepList1Aux src hsep hp _ i1 _ _ _ h).trans (hp i _ _ heq1)

theorem sufP_parseCombinationInnerWith (src : List Char)
    {pe : Parsec (Spanned Expr)} (hpe : SufP pe) :
    SufP (parseCombinationInnerWith src pe) := by
  intro i r a h
  unfold parseCombinationInnerWith at h
  split at h
  · cases h
  · cases h
    exact sufP_pSeparatedPair hpe sufP_pMultispace0
      (sufP_sepList1 src sufP_pMultispace0 hpe) i _ _ ‹_›

theorem sufP_parseCombinationWith (src : List Char)
    {pe : Parsec (Spanned Expr)} (hpe : SufP pe) :
    SufP (parseCombinationWith src pe) :=
  sufP_pDelimited (sufP_pTag src _)
    (sufP_parseCombinationInnerWith src hpe) (sufP_pTag src _)

theorem sufP_parseExpr (src : List Char) : ∀ fuel, SufP (parseExpr src fuel) := by
  intro fuel
  induction fuel with
  | zero => intro i r a h; simp [parseExpr] at h
  | succ f ih =>
    show SufP (pAlt3 (spanned src (parseNumber src))
      (spanned src (parseSymbol src))
      (spanned src (parseCombinationWith src (parseExpr src f))))
    exact sufP_pAlt2 (sufP_spanned src (sufP_parseNumber src))
      (sufP_pAlt2 (sufP_spanned src (sufP_parseSymbol src))
        (sufP_spanned src (sufP_parseCombinationWith src ih)))



theorem pAlt2_ok {α : Type} {p q : Parsec α} {i r : List Char} {a : α}
    (h : pAlt2 p q i = .ok (r, a)) : p i = .ok (r, a) ∨ q i = .ok (r, a) := by
  unfold pAlt2 at h
  split at h
  · cases h
    exact Or.inl ‹_›
  · cases h
  · split at h
    · cases h
      exact Or.inr ‹_›
    · cases h
    · cases h

theorem spanned_span {α : Type} (src : List Char) (p : Parsec α)
    (i r : List Char) (sp : Spanned α) (h : spanned src p i = .ok (r, sp)) :
    sp.span = ⟨src, src.length - i.length, src.length - r.length⟩ := by
  unfold spanned at h
  split at h
  · cases h
  · cases h
    rfl

theorem parseExpr_span (src : List Char) (fuel : Nat) (i r : List Char)
    (sp : Spanned Expr) (h : parseExpr src fuel i = .ok (r, sp)) :
    sp.span = ⟨src, src.length - i.length, src.length - r.length⟩ := by
  cases fuel with
  | zero => simp [parseExpr] at h
  | succ f =>
    have h2 : pAlt2 (spanned src (parseNumber src))
        (pAlt2 (spanned src (parseSymbol src))
          (spanned src (parseCombinationWith src (parseExpr src f)))) i
        = .ok (r, sp) := h
    rcases pAlt2_ok h2 with h3 | h3
    · exact spanned_span src _ i r sp h3
    · rcases pAlt2_ok h3 with h4 | h4
      · exact spanned_span src _ i r sp h4
      · exact spanned_span src _ i r sp h4


/-- Claim C2 as amended: the top-level parse skips leading whitespace and
parses one expression, but performs no all-consuming check — whatever input
remains after the expression (and any following whitespace) is silently
discarded.  `specCompleteExpr`, modelled from the specification's words
with the trailing-input check, refines the code's `complete_expr`: whenever
the spec-version succeeds the code succeeds with the same result, and
whenever the code fails the spec-version fails with the same diagnostic —
the code is strictly more permissive, exactly on inputs with trailing
non-whitespace content (see the counterexample). -/
theorem C2_top_level_parse :
    (∀ (src : List Char) (sp : Spanned Expr),
        specCompleteExpr src = .ok sp → completeExpr src = .ok sp) ∧
    (∀ (src : List Char) (e : ParseError),
        completeExpr src = .error e → specCompleteExpr src = .error e) := by
  constructor
  · intro src sp h
    unfold specCompleteExpr at h
    unfold completeExpr
    cases hscrut : pDelimited pMultispace0 (parseExpr src (canonicalFuel src))
        pMultispace0 src with
    | error pf =>
      rw [hscrut] at h
      cases pf with
      | soft e2 => simp at h
      | hard e2 => simp at h
    | ok v =>
      obtain ⟨rest, sp2⟩ := v
      rw [hscrut] at h
      by_cases hre : rest.isEmpty
      · simp [hre] at h ⊢
        exact h
      · simp [hre] at h
  · intro src e h
    unfold completeExpr at h
    unfold specCompleteExpr
    cases hscrut : pDelimited pMultispace0 (parseExpr src (canonicalFuel src))
        pMultispace0 src with
    | error pf =>
      rw [hscrut] at h
      cases pf with
      | soft e2 =>
        simp at h ⊢
        exact h
      | hard e2 =>
        simp at h ⊢
        exact h
    | ok v =>
      obtain ⟨rest, sp2⟩ := v
      rw [hscrut] at h
      simp at h

/-- Claim C3 as amended: the span of the expression returned by a
successful top-level parse is exact — it starts right after the leading
whitespace, ends within the buffer, and slicing the source with it yields
precisely the substring the expression parser consumed (the slice plus
the unconsumed rest reassemble the post-whitespace input).  The nested
spans of sub-expressions, by contrast, are discarded during combination
construction (see the counterexample), so only the top-level expression
carries a span. -/
theorem C3_span_exactness (s : String) (sp : Spanned Expr)
    (h : parseSnippet s = .ok sp) :
    sp.span.code = s.data ∧
    sp.span.start = s.data.length - (s.data.dropWhile isSpaceChar).length ∧
    sp.span.start ≤ sp.span.stop ∧ sp.span.stop ≤ s.data.length ∧
    ∃ rest : List Char,
      parseExpr s.data (canonicalFuel s.data) (s.data.dropWhile isSpaceChar)
          = .ok (rest, sp) ∧
      (s.data.drop sp.span.start).take (sp.span.stop - sp.span.start) ++ rest
          = s.data.dropWhile isSpaceChar := by
  set dw := s.data.dropWhile isSpaceChar with hdwdef
  unfold parseSnippet completeExpr at h
  split at h
  case h_2 => cases h
  case h_3 => cases h
  case h_1 rest0 sp2 heq =>
  cases h
  unfold pDelimited at heq
  split at heq
  case h_1 hws => simp [pMultispace0] at hws
  case h_2 i1 u hws =>
  have hi1 : i1 = dw := by
    simp [pMultispace0, ← hdwdef] at hws
    exact hws.symm
  subst hi1
  split at heq
  case h_1 => cases heq
  case h_2 i2 b hpe =>
  split at heq
  case h_1 hws2 => simp [pMultispace0] at hws2
  case h_2 i3 u2 hws2 =>
  cases heq
  have hspan := parseExpr_span s.data (canonicalFuel s.data) _ i2 sp hpe
  have hs1 : i2 <:+ dw :=
    sufP_parseExpr s.data (canonicalFuel s.data) _ i2 sp hpe
  have hs2 : dw <:+ s.data := by
    rw [hdwdef]
    exact List.dropWhile_suffix isSpaceChar
  have hle1 : i2.length ≤ dw.length := hs1.length_le
  have hle2 : dw.length ≤ s.data.length := hs2.length_le
  obtain ⟨pre, hpre⟩ := hs2
  obtain ⟨mid, hmid⟩ := hs1
  have hcode : sp.span.code = s.data := by rw [hspan]
  have hstart : sp.span.start = s.data.length - dw.length := by rw [hspan]
  have hstop : sp.span.stop = s.data.length - i2.length := by rw [hspan]
  have hpreLen : pre.length = s.data.length - dw.length := by
    have h2 := congrArg List.length hpre
    simp only [List.length_append] at h2
    omega
  have hmidLen : mid.length = dw.length - i2.length := by
    have h2 := congrArg List.length hmid
    simp only [List.length_append] at h2
    omega
  have hdrop : s.data.drop (s.data.length - dw.length) = dw := by
    rw [← hpreLen, ← hpre]
    exact List.drop_left pre dw
  have htake : dw.take (dw.length - i2.length) ++ i2 = dw := by
    conv_lhs => rw [← hmid]
    rw [show (mid ++ i2).length - i2.length = mid.length by
      simp only [List.length_append]; omega]
    rw [List.take_left]
    exact hmid
  refine ⟨hcode, hstart, ?_, ?_, i2, hpe, ?_⟩
  · rw [hstart, hstop]
    omega
  · rw [hstop]
    omega
  · rw [hstart, hstop, hdrop]
    rw [show s.data.length - i2.length - (s.data.length - dw.length)
      = dw.length - i2.length by omega]
    exact htake


/-- Witness for C2: the refinement applied at `"42"` (where the
spec-modelled parse succeeds) and at the empty input (where the code's
parse fails and the spec-modelled parse fails identically). -/
theorem C2_witness :
    completeExpr "42".data = .ok ⟨.integer 42, ⟨"42".data, 0, 2⟩⟩ ∧
    specCompleteExpr "".data = .error (.nomErr .digit 0 0) :=
  ⟨C2_top_level_parse.1 "42".data ⟨.integer 42, ⟨"42".data, 0, 2⟩⟩ rfl,
   C2_top_level_parse.2 "".data (.nomErr .digit 0 0) rfl⟩

/-- Witness for C3 at `"  42 "`: the parse succeeds with span `[2, 4)`,
and the span slice `"42"` plus the unconsumed `" "` reassemble the
post-whitespace input `"42 "`. -/
theorem C3_witness :
    parseSnippet "  42 " = .ok ⟨.integer 42, ⟨"  42 ".data, 2, 4⟩⟩ ∧
    ("  42 ".data.drop 2).take (4 - 2) ++ [' ']
      = "  42 ".data.dropWhile isSpaceChar := by
  have h := C3_span_exactness "  42 " ⟨.integer 42, ⟨"  42 ".data, 2, 4⟩⟩ rfl
  obtain ⟨-, -, -, -, rest, hpe, hslice⟩ := h
  have hconc : parseExpr "  42 ".data (canonicalFuel "  42 ".data)
      ("  42 ".data.dropWhile isSpaceChar)
      = .ok ([' '], ⟨.integer 42, ⟨"  42 ".data, 2, 4⟩⟩) := rfl
  have hrest : rest = [' '] := by
    have h2 := hpe.symm.trans hconc
    simpa using h2
  subst hrest
  exact ⟨rfl, hslice⟩

end Stonks
